import Mathlib

set_option maxHeartbeats 1000000

namespace RingbufSpec

/-!
Shallow embedding of the BPF ring-buffer consumer (package `ringbuf`,
file `src/ringbuf/reader.go`).

The record-header parsing (`ringbufHeader.isBusy`, `isDiscard`, `dataLen`),
the framing step `readRecord`, and the `Reader` surface (`NewReader`,
`Close`, `Read`/`ReadInto`, `BufferSize`, `SetDeadline`) are translated
from the source.  The shared ring region (`ringbufEventRing`: consumer and
producer positions, `readHeader`, `storeConsumer`, `remaining`, `isEmpty`)
and the epoll poller live in sibling packages that are not part of the
given sources; those are modelled from the spec (section 4.1, "Shared Ring
Region", and section 6, "Readiness Poller") as noted on each definition.

Machine integers are modelled as `Nat`; positions grow unbounded exactly
as the `u64` positions of the protocol do (no overflow is reachable in the
scenarios considered), and the 32-bit length field is produced by decoding
four bytes, hence `< 2^32` whenever the bytes are in range.
-/

/-- unix.BPF_RINGBUF_BUSY_BIT: bit 31 of the header length word. -/
def BPF_RINGBUF_BUSY_BIT : Nat := 2 ^ 31

/-- unix.BPF_RINGBUF_DISCARD_BIT: bit 30 of the header length word. -/
def BPF_RINGBUF_DISCARD_BIT : Nat := 2 ^ 30

/-- ringbufHeader from reader.go: a 32-bit `Len` word (the second word,
`pg_off`, is kernel-internal and ignored by the consumer). -/
structure ringbufHeader where
  Len : Nat
deriving DecidableEq

/-- reader.go `(rh *ringbufHeader) isBusy`: `rh.Len & BPF_RINGBUF_BUSY_BIT != 0`. -/
def ringbufHeader.isBusy (rh : ringbufHeader) : Bool :=
  rh.Len &&& BPF_RINGBUF_BUSY_BIT != 0

/-- reader.go `(rh *ringbufHeader) isDiscard`: `rh.Len & BPF_RINGBUF_DISCARD_BIT != 0`. -/
def ringbufHeader.isDiscard (rh : ringbufHeader) : Bool :=
  rh.Len &&& BPF_RINGBUF_DISCARD_BIT != 0

/-- The mask `^uint32(BPF_RINGBUF_BUSY_BIT | BPF_RINGBUF_DISCARD_BIT)` from
reader.go: complement of the two flag bits within 32 bits. -/
def flagsComplement : Nat :=
  0xFFFFFFFF ^^^ (BPF_RINGBUF_BUSY_BIT ||| BPF_RINGBUF_DISCARD_BIT)

/-- reader.go `(rh *ringbufHeader) dataLen`: the length word with both flag
bits masked off. -/
def ringbufHeader.dataLen (rh : ringbufHeader) : Nat :=
  rh.Len &&& flagsComplement

/-- internal.Align (not under src/). Modelled from the spec: align_up —
"payload rounded up to a multiple of 8" (section 3, "Header"). -/
def align (n a : Nat) : Nat := (n + a - 1) / a * a

/-- Modelled from the spec: the Shared Ring Region (section 4.1), the state
of `ringbufEventRing` which is not under src/.  `cap` is the power-of-two
data-region capacity `C`; `phys` is the physical `C`-byte data area (as a
total function from masked offsets to bytes); `prod` and `cons` are the
unbounded producer and consumer positions. -/
@[ext]
structure RingState where
  cap : Nat
  phys : Nat → Nat
  prod : Nat
  cons : Nat

/-- Modelled from the spec: the aliased data view — "a byte offset `o` and
`o + C` alias the same physical byte" (section 3), i.e. the byte at logical
position `pos` lives at physical offset `pos mod C`. -/
def byteAt (r : RingState) (pos : Nat) : Nat := r.phys (pos % r.cap)

/-- Modelled from the spec: `copyBytes(pos, n)` — "copy `n` bytes starting
at `pos mod C` from the aliased view" (section 4.1). -/
def copyBytes (r : RingState) (pos n : Nat) : List Nat :=
  (List.range n).map fun i => byteAt r (pos + i)

/-- Modelled from the spec: `remainingBytes()` =
`loadProducerPosition() - consumerPosition()` (section 4.1). -/
def remaining (r : RingState) : Nat := r.prod - r.cons

/-- Modelled from the spec: `isEmpty()` — `remainingBytes() == 0` (section 4.1). -/
def isEmpty (r : RingState) : Bool := remaining r == 0

/-- Little-endian decoding of the 32-bit length word from its four bytes
("little/host-endian as mapped", section 6). -/
def decodeLE32 (b0 b1 b2 b3 : Nat) : Nat :=
  b0 + 256 * b1 + 65536 * b2 + 16777216 * b3

/-- Modelled from the spec: `readHeaderAt(pos)` of the Shared Ring Region —
"decode 8 bytes at `pos mod C` in the aliased data view; returns an
end-of-ring signal if `pos == loadProducerPosition()`" (section 4.1).
The second 4-byte word is producer-internal and ignored. -/
def readHeader (r : RingState) : Option ringbufHeader :=
  if r.cons = r.prod then none
  else some ⟨decodeLE32 (byteAt r r.cons) (byteAt r (r.cons + 1))
      (byteAt r (r.cons + 2)) (byteAt r (r.cons + 3))⟩

/-- Outcome of one framing step, the closed set of results of `readRecord`:
`errEOR`, `errBusy`, `errDiscard` and success from reader.go. -/
inductive Outcome where
  | eor
  | busy
  | discarded
  | ok (payload : List Nat) (rem : Nat)
deriving DecidableEq

/-- reader.go `readRecord`: decode one record at the consumer position.
Mirrors the source line by line: end-of-ring check (via the header read),
busy check before anything else, aligned length computed before the discard
check, discard advances the stored consumer position without copying, and
the success path copies `dataLenAligned` bytes, stores the consumer
position, truncates the sample to `dataLen()` and reports `remaining()`
computed after the store. -/
def readRecord (r : RingState) : RingState × Outcome :=
  match readHeader r with
  | none => (r, .eor)
  | some header =>
    if header.isBusy then
      (r, .busy)
    else
      let dataLenAligned := align header.dataLen 8
      if header.isDiscard then
        ({ r with cons := r.cons + 8 + dataLenAligned }, .discarded)
      else
        let sample := copyBytes r (r.cons + 8) dataLenAligned
        let r' : RingState := { r with cons := r.cons + 8 + dataLenAligned }
        (r', .ok (sample.take header.dataLen) (remaining r'))

/-! ### A simulated producer

The producer writes a framed record at the producer position: the 8-byte
header (little-endian length word with clear flag bits, then 4 ignored
bytes) followed by the payload padded with zeros to an 8-byte boundary,
and then publishes the advanced producer position.  This is the wire
format of section 6, "Record header". -/

/-- Write one byte at a logical position (into the masked physical slot). -/
def writeByte (r : RingState) (pos b : Nat) : RingState :=
  { r with phys := fun i => if i = pos % r.cap then b else r.phys i }

/-- Write a run of bytes at consecutive logical positions. -/
def writeBytesAt : RingState → Nat → List Nat → RingState
  | r, _, [] => r
  | r, pos, b :: bs => writeBytesAt (writeByte r pos b) (pos + 1) bs

/-- Little-endian encoding of a 32-bit word into four bytes. -/
def encLE32 (n : Nat) : List Nat :=
  [n % 256, n / 256 % 256, n / 65536 % 256, n / 16777216 % 256]

/-- The on-wire bytes of one committed record with the given payload:
header word (length, flag bits clear), 4 bytes of producer bookkeeping,
payload, zero padding up to the 8-byte boundary. -/
def frameBytes (p : List Nat) : List Nat :=
  encLE32 p.length ++ [0, 0, 0, 0] ++ p ++ List.replicate (align p.length 8 - p.length) 0

/-- Total framed size of a record: `8 + align_up(len, 8)`. -/
def frameSize (p : List Nat) : Nat := 8 + align p.length 8

/-- The simulated producer commits one record: writes the frame at the
producer position and publishes the advanced position. -/
def writeRecord (r : RingState) (p : List Nat) : RingState :=
  { writeBytesAt r r.prod (frameBytes p) with prod := r.prod + frameSize p }

/-- The simulated producer commits a sequence of records in order. -/
def writeAll (r : RingState) (ps : List (List Nat)) : RingState :=
  ps.foldl writeRecord r

/-- Total framed size of a sequence of records. -/
def totalSize (ps : List (List Nat)) : Nat := (ps.map frameSize).sum

/-- An empty ring of capacity `cap`: zeroed data area, both positions 0. -/
def mkRing (cap : Nat) : RingState := ⟨cap, fun _ => 0, 0, 0⟩

/-- A ring whose data area holds the given raw bytes (from offset 0) and
whose producer position is their length; used to stage hand-built headers. -/
def rawRing (cap : Nat) (bs : List Nat) : RingState :=
  { writeBytesAt (mkRing cap) 0 bs with prod := bs.length }

/-! ### The blocking Reader -/

/-- Errors the Readiness Poller's `Wait` can report (section 6 collaborator
contract): deadline exceeded, poller closed, or another I/O failure.
`none` from the poll oracle below means a successful wait. -/
inductive PollErr where
  | deadlineExceeded
  | closed
  | ioFailure (code : Nat)
deriving DecidableEq

/-- Result of `Reader.ReadInto`: the wrapped `ErrClosed` for a closed
reader, a propagated poller error, or a decoded record (payload bytes and
the remaining-bytes hint).  `outOfFuel` is the artifact of bounding the
Go `for` loops by fuel. -/
inductive ReadIntoResult where
  | closedErr
  | pollErr (e : PollErr)
  | record (payload : List Nat) (rem : Nat)
  | outOfFuel
deriving DecidableEq

/-- reader.go `ReadInto`, the nested wait/drain loops (lines 199-226),
bounded by fuel.  `poll k` is the oracle giving the result of the `k`-th
`poller.Wait` call.  With `haveData` false the reader waits: a
deadline-exceeded error is suppressed when a re-check shows the ring
non-empty ("Ignoring this for reading a valid entry after timeout"), any
surviving error is returned, and otherwise `haveData` becomes true.  With
`haveData` true the reader drains: busy and discarded records are retried
immediately, end-of-ring clears `haveData` and falls back to waiting, and
a decoded record is returned.  Returns the final ring state, the final
`haveData` flag and the result. -/
def readIntoLoop (poll : Nat → Option PollErr) :
    Nat → Nat → Bool → RingState → RingState × Bool × ReadIntoResult
  | 0, _, haveData, r => (r, haveData, .outOfFuel)
  | fuel + 1, k, false, r =>
    match poll k with
    | some .deadlineExceeded =>
      if isEmpty r then (r, false, .pollErr .deadlineExceeded)
      else readIntoLoop poll fuel (k + 1) true r
    | some e => (r, false, .pollErr e)
    | none => readIntoLoop poll fuel (k + 1) true r
  | fuel + 1, k, true, r =>
    match readRecord r with
    | (r', .busy) => readIntoLoop poll fuel k true r'
    | (r', .discarded) => readIntoLoop poll fuel k true r'
    | (r', .eor) => readIntoLoop poll fuel k false r'
    | (r', .ok p rem) => (r', true, .record p rem)

/-- reader.go `Reader` bookkeeping: the ring (nulled once closed), the
`haveData` flag, the deadline, the cached buffer size, whether the poller
has been closed, and a count of how many times the ring was torn down
(`ring.Close()` invocations), for stating the at-most-once property. -/
structure Reader where
  ring : Option RingState
  haveData : Bool
  deadline : Nat
  bufferSize : Nat
  pollerClosed : Bool
  ringCloseCount : Nat

/-- reader.go `ReadInto` (lines 191-227): fails with the wrapped `ErrClosed`
when the ring reference is nil, otherwise runs the wait/drain loops. -/
def Reader.ReadInto (rd : Reader) (poll : Nat → Option PollErr) (fuel : Nat) :
    Reader × ReadIntoResult :=
  match rd.ring with
  | none => (rd, .closedErr)
  | some r =>
    let out := readIntoLoop poll fuel 0 rd.haveData r
    ({ rd with ring := some out.1, haveData := out.2.1 }, out.2.2)

/-- reader.go `Read` (lines 185-188): allocates a fresh record and delegates
to `ReadInto`. -/
def Reader.Read (rd : Reader) (poll : Nat → Option PollErr) (fuel : Nat) :
    Reader × ReadIntoResult :=
  rd.ReadInto poll fuel

/-- reader.go `SetDeadline` (lines 173-178): replaces the stored deadline. -/
def Reader.SetDeadline (rd : Reader) (t : Nat) : Reader :=
  { rd with deadline := t }

/-- reader.go `BufferSize` (lines 230-232): the cached ring capacity. -/
def Reader.BufferSize (rd : Reader) : Nat := rd.bufferSize

/-- Modelled from the spec: the poller's `Close()` (section 6 collaborator
contract) — closing an already-closed poller reports the closed error
(`os.ErrClosed`), otherwise it succeeds; `true` in the result is the wrapped
closed flag. -/
def pollerCloseErrClosed (pollerClosed : Bool) : Bool := pollerClosed

/-- reader.go `Close` (lines 150-168): close the poller first; if that
reports `os.ErrClosed` return nil immediately (the reader was already
closed) without touching the ring; otherwise tear the ring down (at most
once) and null the reference.  The returned `Option Nat` is the error
(`none` = nil); the modelled poller never fails other than with the
closed error, which `Close` maps to nil. -/
def Reader.Close (rd : Reader) : Reader × Option Nat :=
  if pollerCloseErrClosed rd.pollerClosed then
    (rd, none)
  else
    let rd1 : Reader := { rd with pollerClosed := true }
    match rd1.ring with
    | some _ =>
      ({ rd1 with ring := none, ringCloseCount := rd1.ringCloseCount + 1 }, none)
    | none => (rd1, none)

/-- A freshly constructed reader over ring state `r` with capacity `cap`
(the relevant fields set as `NewReader` does). -/
def freshReader (cap : Nat) (r : RingState) : Reader :=
  ⟨some r, false, 0, cap, false, 0⟩

/-- ebpf.MapType, reduced to the discriminator the reader checks. -/
inductive MapType where
  | ringBuf
  | otherKind (t : Nat)
deriving DecidableEq

/-- The backing map: its type discriminator and `MaxEntries` (the ring
capacity in bytes). -/
structure BpfMap where
  typ : MapType
  maxEntries : Nat
deriving DecidableEq

/-- The distinct construction errors of `NewReader`. -/
inductive NewReaderError where
  | invalidType (t : MapType)
  | invalidSize (n : Nat)
  | epollCreate
  | epollAdd
  | ringMap
deriving DecidableEq

/-- Outcome of `NewReader` together with a ledger of acquired resources:
how many pollers were created, how many of those were closed again on the
error paths, and how many ring mappings were established. -/
structure NewReaderOutcome where
  result : Except NewReaderError Reader
  pollersOpened : Nat
  pollersClosed : Nat
  ringsMapped : Nat

/-- reader.go `NewReader` (lines 113-145): reject a non-ringbuf map type,
then reject a capacity that is zero or not a power of two (the source test
`maxEntries&(maxEntries-1) != 0`), both before acquiring anything; then
create the poller, register the descriptor, and map the ring, closing the
poller again if a later step fails.  The booleans say whether each external
acquisition step succeeds. -/
def NewReader (m : BpfMap) (pollerOk addOk mapOk : Bool) : NewReaderOutcome :=
  if m.typ ≠ MapType.ringBuf then
    ⟨.error (.invalidType m.typ), 0, 0, 0⟩
  else if m.maxEntries = 0 || m.maxEntries &&& (m.maxEntries - 1) != 0 then
    ⟨.error (.invalidSize m.maxEntries), 0, 0, 0⟩
  else if !pollerOk then
    ⟨.error .epollCreate, 0, 0, 0⟩
  else if !addOk then
    ⟨.error .epollAdd, 1, 1, 0⟩
  else if !mapOk then
    ⟨.error .ringMap, 1, 1, 0⟩
  else
    ⟨.ok (freshReader m.maxEntries (mkRing m.maxEntries)), 1, 0, 1⟩

/-- Draining driver for the FIFO property: call `Read` repeatedly (`n`
times), collecting the returned payloads, stopping early on anything that
is not a record.  Returns the collected payloads and the final reader. -/
def readLoop (poll : Nat → Option PollErr) (fuel : Nat) :
    Nat → Reader → List (List Nat) × Reader
  | 0, rd => ([], rd)
  | n + 1, rd =>
    match rd.Read poll fuel with
    | (rd', .record p _) =>
      let out := readLoop poll fuel n rd'
      (p :: out.1, out.2)
    | (rd', _) => ([], rd')

/-! ### Basic facts about the ring model and the simulated producer -/

@[simp]
theorem writeByte_cap (r : RingState) (pos b : Nat) : (writeByte r pos b).cap = r.cap := rfl

@[simp]
theorem writeByte_prod (r : RingState) (pos b : Nat) : (writeByte r pos b).prod = r.prod := rfl

@[simp]
theorem writeByte_cons (r : RingState) (pos b : Nat) : (writeByte r pos b).cons = r.cons := rfl

theorem byteAt_writeByte (r : RingState) (p b q : Nat) :
    byteAt (writeByte r p b) q = if q % r.cap = p % r.cap then b else byteAt r q := rfl

theorem byteAt_writeByte_self (r : RingState) (p b : Nat) :
    byteAt (writeByte r p b) p = b := by
  rw [byteAt_writeByte, if_pos rfl]

@[simp]
theorem writeBytesAt_cap (bs : List Nat) (r : RingState) (s : Nat) :
    (writeBytesAt r s bs).cap = r.cap := by
  induction bs generalizing r s with
  | nil => rfl
  | cons b bs ih => rw [writeBytesAt, ih]; rfl

@[simp]
theorem writeBytesAt_prod (bs : List Nat) (r : RingState) (s : Nat) :
    (writeBytesAt r s bs).prod = r.prod := by
  induction bs generalizing r s with
  | nil => rfl
  | cons b bs ih => rw [writeBytesAt, ih]; rfl

@[simp]
theorem writeBytesAt_cons (bs : List Nat) (r : RingState) (s : Nat) :
    (writeBytesAt r s bs).cons = r.cons := by
  induction bs generalizing r s with
  | nil => rfl
  | cons b bs ih => rw [writeBytesAt, ih]; rfl

theorem byteAt_writeBytesAt_outside (bs : List Nat) (r : RingState) (s pos : Nat)
    (h : ∀ j, j < bs.length → (s + j) % r.cap ≠ pos % r.cap) :
    byteAt (writeBytesAt r s bs) pos = byteAt r pos := by
  induction bs generalizing r s with
  | nil => rfl
  | cons b bs ih =>
    rw [writeBytesAt, ih (writeByte r s b) (s + 1) ?_]
    · rw [byteAt_writeByte, if_neg]
      intro hc
      exact h 0 (Nat.succ_pos _) (by simpa using hc.symm)
    · intro j hj
      have := h (j + 1) (by simpa using Nat.succ_lt_succ hj)
      have harr : s + (j + 1) = s + 1 + j := by omega
      rw [harr] at this
      exact this

theorem byteAt_writeBytesAt_getD (bs : List Nat) (r : RingState) (s i : Nat)
    (hi : i < bs.length)
    (hsep : ∀ j, i < j → j < bs.length → (s + j) % r.cap ≠ (s + i) % r.cap) :
    byteAt (writeBytesAt r s bs) (s + i) = bs.getD i 0 := by
  induction bs generalizing r s i with
  | nil => exact absurd hi (by simp)
  | cons b bs ih =>
    match i with
    | 0 =>
      rw [Nat.add_zero, writeBytesAt, byteAt_writeBytesAt_outside bs _ _ _ ?_]
      · exact byteAt_writeByte_self r s b
      · intro j hj
        have := hsep (j + 1) (Nat.succ_pos _) (by simpa using Nat.succ_lt_succ hj)
        have harr : s + (j + 1) = s + 1 + j := by omega
        rw [harr, Nat.add_zero] at this
        exact this
    | i' + 1 =>
      rw [writeBytesAt, show s + (i' + 1) = (s + 1) + i' by omega,
        ih (writeByte r s b) (s + 1) i' (by simpa using Nat.lt_of_succ_lt_succ hi) ?_]
      · simp
      · intro j hij hj
        have := hsep (j + 1) (Nat.succ_lt_succ hij) (by simpa using Nat.succ_lt_succ hj)
        have harr : s + (j + 1) = s + 1 + j := by omega
        have harr2 : s + (i' + 1) = s + 1 + i' := by omega
        rw [harr, harr2] at this
        simpa using this

theorem mod_ne_of_between {cap p q : Nat} (hpq : p < q) (hlt : q - p < cap) :
    q % cap ≠ p % cap := by
  intro h
  have hdvd : cap ∣ q - p := (Nat.modEq_iff_dvd' (Nat.le_of_lt hpq)).1 h.symm
  have := Nat.le_of_dvd (by omega) hdvd
  omega

theorem byteAt_writeBytesAt_of_le (bs : List Nat) (r : RingState) (s i : Nat)
    (hcap : bs.length ≤ r.cap) (hi : i < bs.length) :
    byteAt (writeBytesAt r s bs) (s + i) = bs.getD i 0 := by
  refine byteAt_writeBytesAt_getD bs r s i hi ?_
  intro j hij hj
  exact mod_ne_of_between (by omega) (by omega)

theorem le_align (n : Nat) : n ≤ align n 8 := by
  unfold align; omega

@[simp]
theorem align_zero : align 0 8 = 0 := rfl

theorem decodeLE32_encLE32 (n : Nat) (h : n < 4294967296) :
    decodeLE32 (n % 256) (n / 256 % 256) (n / 65536 % 256) (n / 16777216 % 256) = n := by
  unfold decodeLE32; omega

theorem frameBytes_length (p : List Nat) : (frameBytes p).length = frameSize p := by
  have := le_align p.length
  simp [frameBytes, frameSize, encLE32]
  omega

theorem frameSize_pos (p : List Nat) : 8 ≤ frameSize p := by
  simp [frameSize]

@[simp]
theorem writeRecord_cap (r : RingState) (p : List Nat) :
    (writeRecord r p).cap = r.cap := by
  simp [writeRecord]

@[simp]
theorem writeRecord_prod (r : RingState) (p : List Nat) :
    (writeRecord r p).prod = r.prod + frameSize p := by
  simp [writeRecord]

@[simp]
theorem writeRecord_cons (r : RingState) (p : List Nat) :
    (writeRecord r p).cons = r.cons := by
  simp [writeRecord]

@[simp]
theorem totalSize_nil : totalSize [] = 0 := rfl

@[simp]
theorem totalSize_cons (p : List Nat) (ps : List (List Nat)) :
    totalSize (p :: ps) = frameSize p + totalSize ps := by
  simp [totalSize]

@[simp]
theorem writeAll_nil (r : RingState) : writeAll r [] = r := rfl

@[simp]
theorem writeAll_cons (r : RingState) (p : List Nat) (ps : List (List Nat)) :
    writeAll r (p :: ps) = writeAll (writeRecord r p) ps := rfl

@[simp]
theorem writeAll_cap (ps : List (List Nat)) (r : RingState) :
    (writeAll r ps).cap = r.cap := by
  induction ps generalizing r with
  | nil => rfl
  | cons p ps ih => rw [writeAll_cons, ih, writeRecord_cap]

@[simp]
theorem writeAll_cons_pos (ps : List (List Nat)) (r : RingState) :
    (writeAll r ps).cons = r.cons := by
  induction ps generalizing r with
  | nil => rfl
  | cons p ps ih => rw [writeAll_cons, ih, writeRecord_cons]

@[simp]
theorem writeAll_prod (ps : List (List Nat)) (r : RingState) :
    (writeAll r ps).prod = r.prod + totalSize ps := by
  induction ps generalizing r with
  | nil => simp
  | cons p ps ih => rw [writeAll_cons, ih, writeRecord_prod, totalSize_cons]; omega

theorem writeBytesAt_setCons (bs : List Nat) (r : RingState) (s c : Nat) :
    writeBytesAt { r with cons := c } s bs = { writeBytesAt r s bs with cons := c } := by
  induction bs generalizing r s with
  | nil => rfl
  | cons b bs ih =>
    rw [writeBytesAt, writeBytesAt]
    exact ih (writeByte r s b) (s + 1)

theorem writeRecord_setCons (r : RingState) (p : List Nat) (c : Nat) :
    writeRecord { r with cons := c } p = { writeRecord r p with cons := c } := by
  show { writeBytesAt { r with cons := c } r.prod (frameBytes p) with
      prod := r.prod + frameSize p } = _
  rw [writeBytesAt_setCons]
  rfl

theorem writeAll_setCons (ps : List (List Nat)) (r : RingState) (c : Nat) :
    writeAll { r with cons := c } ps = { writeAll r ps with cons := c } := by
  induction ps generalizing r with
  | nil => rfl
  | cons p ps ih => rw [writeAll_cons, writeRecord_setCons, ih, writeAll_cons]

theorem byteAt_writeAll_outside (ps : List (List Nat)) (r : RingState) (pos : Nat)
    (hlt : pos < r.prod) (hfit : r.prod + totalSize ps ≤ pos + r.cap) :
    byteAt (writeAll r ps) pos = byteAt r pos := by
  induction ps generalizing r with
  | nil => rfl
  | cons p ps ih =>
    rw [writeAll_cons, ih (writeRecord r p) (by simp; omega) ?_]
    · show byteAt (writeBytesAt r r.prod (frameBytes p)) pos = byteAt r pos
      refine byteAt_writeBytesAt_outside _ _ _ _ ?_
      intro j hj
      rw [frameBytes_length] at hj
      have h1 : totalSize (p :: ps) = frameSize p + totalSize ps := totalSize_cons p ps
      exact mod_ne_of_between (by omega) (by omega)
    · rw [writeRecord_prod, writeRecord_cap]
      rw [totalSize_cons] at hfit
      omega

/-! ### Header bit facts -/

theorem flagsComplement_eq : flagsComplement = 2 ^ 30 - 1 := by decide

theorem land_two_pow_eq_zero {a i : Nat} (h : a < 2 ^ i) : a &&& 2 ^ i = 0 := by
  rw [Nat.and_two_pow, Nat.testBit_lt_two_pow h]
  simp

theorem isBusy_of_lt {n : Nat} (h : n < 2 ^ 30) :
    ringbufHeader.isBusy ⟨n⟩ = false := by
  show (n &&& BPF_RINGBUF_BUSY_BIT != 0) = false
  rw [show BPF_RINGBUF_BUSY_BIT = 2 ^ 31 from rfl,
    land_two_pow_eq_zero (lt_trans h (by norm_num))]
  rfl

theorem isDiscard_of_lt {n : Nat} (h : n < 2 ^ 30) :
    ringbufHeader.isDiscard ⟨n⟩ = false := by
  show (n &&& BPF_RINGBUF_DISCARD_BIT != 0) = false
  rw [show BPF_RINGBUF_DISCARD_BIT = 2 ^ 30 from rfl, land_two_pow_eq_zero h]
  rfl

theorem dataLen_of_lt {n : Nat} (h : n < 2 ^ 30) :
    ringbufHeader.dataLen ⟨n⟩ = n := by
  show n &&& flagsComplement = n
  rw [flagsComplement_eq]
  exact Nat.and_pow_two_sub_one_of_lt_two_pow h

theorem dataLen_lt (h : ringbufHeader) : h.dataLen < 2 ^ 30 := by
  show h.Len &&& flagsComplement < 2 ^ 30
  rw [flagsComplement_eq, Nat.and_pow_two_sub_one_eq_mod]
  exact Nat.mod_lt _ (by norm_num)

/-- The source's power-of-two test: a positive number with `n & (n-1) == 0`
has a single set bit. -/
theorem exists_pow_of_land_pred (n : Nat) (hn : n ≠ 0) (hand : n &&& (n - 1) = 0) :
    ∃ k, n = 2 ^ k := by
  induction n using Nat.strong_induction_on with
  | _ n ih =>
    rcases Nat.lt_or_ge n 2 with h2 | h2
    · interval_cases n
      · exact absurd rfl hn
      · exact ⟨0, rfl⟩
    · rcases Nat.even_or_odd n with he | ho
      · -- n even: halve and recurse
        have hm : n / 2 ≠ 0 := by omega
        have hmlt : n / 2 < n := by omega
        have hhalf : n / 2 &&& (n / 2 - 1) = 0 := by
          refine Nat.eq_of_testBit_eq fun i => ?_
          rw [Nat.zero_testBit, Nat.testBit_land]
          have hb : (n &&& (n - 1)).testBit (i + 1) = false := by
            rw [hand, Nat.zero_testBit]
          rw [Nat.testBit_land, Nat.testBit_succ, Nat.testBit_succ] at hb
          have hdiv : (n - 1) / 2 = n / 2 - 1 := by
            rcases he with ⟨m, hm2⟩
            omega
          rw [hdiv] at hb
          exact hb
        obtain ⟨k, hk⟩ := ih (n / 2) hmlt hm hhalf
        refine ⟨k + 1, ?_⟩
        have : n = 2 * (n / 2) := by
          rcases he with ⟨m, hm2⟩
          omega
        rw [this, hk, Nat.pow_succ]
        omega
      · -- n odd and at least 3: the land cannot be zero
        exfalso
        have hm : n / 2 ≠ 0 := by omega
        obtain ⟨j, hj⟩ := Nat.ne_zero_implies_bit_true hm
        have hb : (n &&& (n - 1)).testBit (j + 1) = false := by
          rw [hand, Nat.zero_testBit]
        rw [Nat.testBit_land, Nat.testBit_succ, Nat.testBit_succ] at hb
        have hdiv : (n - 1) / 2 = n / 2 := by
          rcases ho with ⟨m, hm2⟩
          omega
        rw [hdiv, hj] at hb
        simp at hb

/-! ### Decoding a freshly written frame -/

theorem frameBytes_eq (p : List Nat) :
    frameBytes p =
      p.length % 256 :: p.length / 256 % 256 :: p.length / 65536 % 256 ::
        p.length / 16777216 % 256 :: 0 :: 0 :: 0 :: 0 ::
        (p ++ List.replicate (align p.length 8 - p.length) 0) := by
  simp [frameBytes, encLE32]

theorem frameBytes_getD_payload (p : List Nat) (i : Nat) :
    (frameBytes p).getD (8 + i) 0 =
      (p ++ List.replicate (align p.length 8 - p.length) 0).getD i 0 := by
  rw [frameBytes_eq, Nat.add_comm]
  simp [List.getD_cons_succ]

theorem readRecord_none (r : RingState) (hh : readHeader r = none) :
    readRecord r = (r, .eor) := by
  unfold readRecord
  rw [hh]

theorem readRecord_some (r : RingState) (h : ringbufHeader)
    (hh : readHeader r = some h) :
    readRecord r =
      if h.isBusy then (r, .busy)
      else if h.isDiscard then
        ({ r with cons := r.cons + 8 + align h.dataLen 8 }, .discarded)
      else
        ({ r with cons := r.cons + 8 + align h.dataLen 8 },
          .ok ((copyBytes r (r.cons + 8) (align h.dataLen 8)).take h.dataLen)
            (remaining { r with cons := r.cons + 8 + align h.dataLen 8 })) := by
  unfold readRecord
  rw [hh]

/-- Reading the ring after the simulated producer appended `p :: rest` to a
drained position decodes exactly `p`: the record round-trips byte for byte,
the consumer position advances by its framed size, and the reported
remaining count is the framed size of `rest`. -/
theorem readRecord_writeAll_first (r : RingState) (p : List Nat)
    (rest : List (List Nat)) (hcp : r.cons = r.prod)
    (hlen : p.length < 2 ^ 30) (hsz : totalSize (p :: rest) ≤ r.cap) :
    readRecord (writeAll r (p :: rest)) =
      (writeAll { writeRecord r p with cons := r.cons + frameSize p } rest,
        Outcome.ok p (totalSize rest)) := by
  have hts : totalSize (p :: rest) = frameSize p + totalSize rest := totalSize_cons p rest
  have hfs8 : 8 ≤ frameSize p := frameSize_pos p
  have hflen : (frameBytes p).length = frameSize p := frameBytes_length p
  have hal : p.length ≤ align p.length 8 := le_align p.length
  have hfit : frameSize p + totalSize rest ≤ r.cap := by omega
  rw [writeAll_cons]
  set R : RingState := writeAll (writeRecord r p) rest with hR
  have hRcap : R.cap = r.cap := by rw [hR]; simp
  have hRcons : R.cons = r.prod := by rw [hR]; simp [hcp]
  have hRprod : R.prod = r.prod + frameSize p + totalSize rest := by
    rw [hR]; simp [Nat.add_assoc]
  have hbyte : ∀ i, i < frameSize p →
      byteAt R (r.prod + i) = (frameBytes p).getD i 0 := by
    intro i hi
    rw [hR, byteAt_writeAll_outside rest (writeRecord r p) (r.prod + i)
      (by simp; omega) (by simp; omega)]
    show byteAt (writeBytesAt r r.prod (frameBytes p)) (r.prod + i) = _
    exact byteAt_writeBytesAt_of_le _ _ _ _ (by omega) (by omega)
  have hne : ¬ R.cons = R.prod := by rw [hRcons, hRprod]; omega
  have hlen32 : p.length < 4294967296 := lt_trans hlen (by norm_num)
  have hhdr : readHeader R = some ⟨p.length⟩ := by
    rw [readHeader, if_neg hne, hRcons]
    have e0 : byteAt R r.prod = p.length % 256 := by
      have := hbyte 0 (by omega)
      rw [Nat.add_zero] at this
      rw [this, frameBytes_eq]
      rfl
    have e1 : byteAt R (r.prod + 1) = p.length / 256 % 256 := by
      rw [hbyte 1 (by omega), frameBytes_eq]
      rfl
    have e2 : byteAt R (r.prod + 2) = p.length / 65536 % 256 := by
      rw [hbyte 2 (by omega), frameBytes_eq]
      rfl
    have e3 : byteAt R (r.prod + 3) = p.length / 16777216 % 256 := by
      rw [hbyte 3 (by omega), frameBytes_eq]
      rfl
    rw [e0, e1, e2, e3, decodeLE32_encLE32 p.length hlen32]
  have hpay : copyBytes R (r.prod + 8) (align p.length 8) =
      p ++ List.replicate (align p.length 8 - p.length) 0 := by
    apply List.ext_getElem
    · simp [copyBytes]
      omega
    · intro i h1 h2
      simp only [copyBytes, List.getElem_map, List.getElem_range]
      have h1' : i < align p.length 8 := by simpa [copyBytes] using h1
      have hi8 : 8 + i < frameSize p := by simp [frameSize]; omega
      rw [show r.prod + 8 + i = r.prod + (8 + i) by omega, hbyte (8 + i) hi8,
        frameBytes_getD_payload]
      rw [List.getD_eq_getElem?_getD, List.getElem?_eq_getElem h2]
      rfl
  have htake : (p ++ List.replicate (align p.length 8 - p.length) 0).take p.length
      = p := List.take_left' rfl
  have hbusy := isBusy_of_lt hlen
  have hdisc := isDiscard_of_lt hlen
  have hdl := dataLen_of_lt hlen
  rw [readRecord_some R ⟨p.length⟩ hhdr]
  rw [hbusy, hdisc, hdl]
  simp only [Bool.false_eq_true, if_false]
  have hcons : R.cons + 8 + align p.length 8 = r.cons + frameSize p := by
    rw [hRcons, hcp]
    simp [frameSize]
    omega
  rw [hcons]
  rw [writeAll_setCons, ← hR]
  have hpay' : (copyBytes R (R.cons + 8) (align p.length 8)).take p.length = p := by
    rw [hRcons, hpay, htake]
  rw [hpay']
  have hrem : remaining { R with cons := r.cons + frameSize p } = totalSize rest := by
    show R.prod - (r.cons + frameSize p) = totalSize rest
    rw [hRprod, hcp]
    omega
  rw [hrem]

/-- Draining a ring pre-loaded with `ps` through the public `Read` surface
(with a poller whose waits all succeed) yields exactly `ps`, leaving an
empty ring. -/
theorem readLoop_writeAll (ps : List (List Nat)) (r : RingState) (hd : Bool)
    (dl bs : Nat) (pc : Bool) (cc : Nat)
    (hcp : r.cons = r.prod) (hlen : ∀ p ∈ ps, p.length < 2 ^ 30)
    (hsz : totalSize ps ≤ r.cap) :
    ∃ hdf rf,
      readLoop (fun _ => none) 2 ps.length
          ⟨some (writeAll r ps), hd, dl, bs, pc, cc⟩ =
        (ps, ⟨some rf, hdf, dl, bs, pc, cc⟩) ∧ rf.cons = rf.prod := by
  induction ps generalizing r hd with
  | nil => exact ⟨hd, r, rfl, hcp⟩
  | cons p rest ih =>
    have hrr := readRecord_writeAll_first r p rest hcp (hlen p (by simp)) hsz
    rw [writeAll_cons] at hrr
    have hstep : Reader.ReadInto ⟨some (writeAll r (p :: rest)), hd, dl, bs, pc, cc⟩
        (fun _ => none) 2 =
        (⟨some (writeAll { writeRecord r p with cons := r.cons + frameSize p } rest),
          true, dl, bs, pc, cc⟩, .record p (totalSize rest)) := by
      cases hd <;> simp [Reader.ReadInto, readIntoLoop, hrr]
    have hr2 : ({ writeRecord r p with cons := r.cons + frameSize p } : RingState).cons
        = ({ writeRecord r p with cons := r.cons + frameSize p } : RingState).prod := by
      simp [hcp]
    have hlen2 : ∀ q ∈ rest, q.length < 2 ^ 30 := fun q hq => hlen q (by simp [hq])
    have hsz2 : totalSize rest ≤
        ({ writeRecord r p with cons := r.cons + frameSize p } : RingState).cap := by
      rw [totalSize_cons] at hsz
      simp
      omega
    obtain ⟨hdf, rf, heq, hrf⟩ :=
      ih { writeRecord r p with cons := r.cons + frameSize p } true hr2 hlen2 hsz2
    refine ⟨hdf, rf, ?_, hrf⟩
    show readLoop (fun _ => none) 2 (rest.length + 1) _ = _
    rw [readLoop]
    simp only [Reader.Read, hstep, heq]

/-- C1: for every sequence of records committed by the simulated producer
into a power-of-two-capacity ring (records small enough to be framed and
to fit together in the capacity, i.e. the producer never overruns unread
data), draining via `Read` in a loop returns exactly those payloads, in
FIFO order, byte for byte, and leaves the ring empty. -/
theorem c1_fifo_roundtrip (C : Nat) (ps : List (List Nat))
    (hC : ∃ k, C = 2 ^ k)
    (hlen : ∀ p ∈ ps, p.length < 2 ^ 30)
    (hsz : totalSize ps ≤ C) :
    (readLoop (fun _ => none) 2 ps.length
        (freshReader C (writeAll (mkRing C) ps))).1 = ps ∧
    ∃ rf, (readLoop (fun _ => none) 2 ps.length
        (freshReader C (writeAll (mkRing C) ps))).2.ring = some rf ∧
      isEmpty rf = true := by
  obtain ⟨hdf, rf, heq, hrf⟩ :=
    readLoop_writeAll ps (mkRing C) false 0 C false 0 rfl hlen hsz
  refine ⟨?_, rf, ?_, ?_⟩
  · show (readLoop (fun _ => none) 2 ps.length
        ⟨some (writeAll (mkRing C) ps), false, 0, C, false, 0⟩).1 = ps
    rw [heq]
  · show (readLoop (fun _ => none) 2 ps.length
        ⟨some (writeAll (mkRing C) ps), false, 0, C, false, 0⟩).2.ring = some rf
    rw [heq]
  · simp [isEmpty, remaining, hrf]

/-- C1 witness: three concrete records (including an empty one) written
into a 64-byte ring drain back in order through `Read`. -/
theorem c1_fifo_roundtrip_witness :
    (∃ k, (64 : Nat) = 2 ^ k) ∧
    (∀ p ∈ [[1, 2, 3], ([] : List Nat), [10, 20, 30, 40, 50, 60, 70, 80, 90]],
      p.length < 2 ^ 30) ∧
    totalSize [[1, 2, 3], [], [10, 20, 30, 40, 50, 60, 70, 80, 90]] ≤ 64 ∧
    (readLoop (fun _ => none) 2 3
        (freshReader 64 (writeAll (mkRing 64)
          [[1, 2, 3], [], [10, 20, 30, 40, 50, 60, 70, 80, 90]]))).1 =
      [[1, 2, 3], [], [10, 20, 30, 40, 50, 60, 70, 80, 90]] :=
  ⟨⟨6, rfl⟩, by decide, by decide,
    (c1_fifo_roundtrip 64 [[1, 2, 3], [], [10, 20, 30, 40, 50, 60, 70, 80, 90]]
      ⟨6, rfl⟩ (by decide) (by decide)).1⟩

/-! ### Concrete rings used as witnesses -/

/-- A ring holding a single header whose busy bit (bit 31) is set:
`Len = 0x80000005`. -/
def rBusy64 : RingState := rawRing 64 [5, 0, 0, 128, 0, 0, 0, 0]

/-- A ring holding a single discarded record: `Len = 0x40000010`
(discard bit set, payload length 16), followed by 16 payload bytes. -/
def rDiscard64 : RingState :=
  rawRing 64 ([16, 0, 0, 64] ++ [0, 0, 0, 0] ++ List.replicate 16 7)

/-- A ring holding a single zero-length record (`Len = 0`). -/
def rZero64 : RingState := rawRing 64 [0, 0, 0, 0, 0, 0, 0, 0]

/-- A ring holding a single header with both the busy bit and the discard
bit set: `Len = 0xC0000005`. -/
def rBoth64 : RingState := rawRing 64 [5, 0, 0, 192, 0, 0, 0, 0]

/-- The spec's two-record scenario: records of 10 and 20 bytes in a
4096-byte ring. -/
def rTwoRecords : RingState :=
  writeAll (mkRing 4096) [List.range 10, List.range 20]

/-- C2: a header with the busy bit set makes `readRecord` return the Busy
signal without storing the consumer position — the state (hence the
published consumer position) is unchanged, so the next decode starts from
the very same position and behaves identically; the record is never
returned while the bit is set. -/
theorem c2_busy_no_advance (r : RingState) (h : ringbufHeader)
    (hh : readHeader r = some h) (hb : h.isBusy = true) :
    readRecord r = (r, .busy) ∧ readRecord (readRecord r).1 = readRecord r := by
  have h1 : readRecord r = (r, .busy) := by
    rw [readRecord_some r h hh, hb]
    simp
  exact ⟨h1, by rw [h1]; exact h1⟩

/-- C2 witness: the concrete busy header `0x80000005` is signalled Busy and
the ring state is left untouched. -/
theorem c2_busy_no_advance_witness :
    readHeader rBusy64 = some ⟨2147483653⟩ ∧
    (⟨2147483653⟩ : ringbufHeader).isBusy = true ∧
    readRecord rBusy64 = (rBusy64, .busy) :=
  ⟨by decide, by decide, (c2_busy_no_advance rBusy64 ⟨2147483653⟩ (by decide) (by decide)).1⟩

/-- C3: a header with the discard bit set (busy clear) is skipped: the
outcome is the Discarded signal — which carries no payload, and the
discard branch performs no `copyBytes` — and the stored consumer position
advances past the record by exactly `8 + align_up(len, 8)` bytes. -/
theorem c3_discard_skips (r : RingState) (h : ringbufHeader)
    (hh : readHeader r = some h) (hb : h.isBusy = false) (hd : h.isDiscard = true) :
    readRecord r = ({ r with cons := r.cons + 8 + align h.dataLen 8 }, .discarded) := by
  rw [readRecord_some r h hh, hb, hd]
  simp

/-- C3 witness: the concrete discard header `0x40000010` (length 16) is
skipped and the consumer position advances by `8 + 16 = 24`. -/
theorem c3_discard_skips_witness :
    readHeader rDiscard64 = some ⟨1073741840⟩ ∧
    (⟨1073741840⟩ : ringbufHeader).isBusy = false ∧
    (⟨1073741840⟩ : ringbufHeader).isDiscard = true ∧
    readRecord rDiscard64 = ({ rDiscard64 with cons := 24 }, .discarded) :=
  ⟨by decide, by decide, by decide,
    c3_discard_skips rDiscard64 ⟨1073741840⟩ (by decide) (by decide) (by decide)⟩

/-- C4: a committed record (busy and discard clear) is returned with its
payload truncated to exactly `dataLen` bytes (the 8-byte-alignment padding
is dropped from the `alignedLen`-byte copy), the consumer position is
stored as the old position plus `8 + align_up(len, 8)`, and the reported
`Remaining` is the ring's remaining unread byte count computed on the
state holding that just-stored position. -/
theorem c4_ok_truncates (r : RingState) (h : ringbufHeader)
    (hh : readHeader r = some h) (hb : h.isBusy = false) (hd : h.isDiscard = false) :
    readRecord r =
      ({ r with cons := r.cons + 8 + align h.dataLen 8 },
        .ok ((copyBytes r (r.cons + 8) (align h.dataLen 8)).take h.dataLen)
          (remaining { r with cons := r.cons + 8 + align h.dataLen 8 })) ∧
    ((copyBytes r (r.cons + 8) (align h.dataLen 8)).take h.dataLen).length
      = h.dataLen := by
  refine ⟨by rw [readRecord_some r h hh, hb, hd]; simp, ?_⟩
  rw [List.length_take]
  simp [copyBytes]
  exact le_align h.dataLen

/-- C4 witness: the spec's two-record scenario (10- and 20-byte records,
capacity 4096): the first read returns the 10 payload bytes exactly and
reports `Remaining = 32`, the framed size of the second record. -/
theorem c4_ok_truncates_witness :
    readHeader rTwoRecords = some ⟨10⟩ ∧
    (⟨10⟩ : ringbufHeader).isBusy = false ∧
    (⟨10⟩ : ringbufHeader).isDiscard = false ∧
    ((copyBytes rTwoRecords (rTwoRecords.cons + 8)
        (align (ringbufHeader.dataLen ⟨10⟩) 8)).take
      (ringbufHeader.dataLen ⟨10⟩)).length = ringbufHeader.dataLen ⟨10⟩ ∧
    (readRecord rTwoRecords).2 = .ok (List.range 10) 32 :=
  ⟨by decide, by decide, by decide,
    (c4_ok_truncates rTwoRecords ⟨10⟩ (by decide) (by decide) (by decide)).2,
    by decide⟩

/-- C9: a record with payload length 0 succeeds: the payload is the empty
byte sequence and the consumer position advances by exactly 8 (header
only, since `align_up(0, 8) = 0`). -/
theorem c9_zero_length (r : RingState) (h : ringbufHeader)
    (hh : readHeader r = some h) (hb : h.isBusy = false) (hd : h.isDiscard = false)
    (hz : h.dataLen = 0) :
    readRecord r =
      ({ r with cons := r.cons + 8 },
        .ok [] (remaining { r with cons := r.cons + 8 })) := by
  rw [readRecord_some r h hh, hb, hd, hz]
  simp [copyBytes]

/-- C9 witness: the concrete zero-length record is read back as the empty
payload with the consumer position advanced by 8. -/
theorem c9_zero_length_witness :
    readHeader rZero64 = some ⟨0⟩ ∧
    (⟨0⟩ : ringbufHeader).isBusy = false ∧
    (⟨0⟩ : ringbufHeader).isDiscard = false ∧
    (⟨0⟩ : ringbufHeader).dataLen = 0 ∧
    readRecord rZero64 = ({ rZero64 with cons := 8 }, .ok [] 0) :=
  ⟨by decide, by decide, by decide, by decide,
    c9_zero_length rZero64 ⟨0⟩ (by decide) (by decide) (by decide) (by decide)⟩

/-- C10: when both the busy bit and the discard bit are set the busy check
wins (it precedes the discard check): `readRecord` signals Busy and leaves
the consumer position unchanged; and the decoded payload length always has
both flag bits masked off. -/
theorem c10_busy_precedes_discard (r : RingState) (h : ringbufHeader)
    (hh : readHeader r = some h) (hb : h.isBusy = true) (hd : h.isDiscard = true) :
    readRecord r = (r, .busy) ∧
    ∀ g : ringbufHeader, g.dataLen &&& BPF_RINGBUF_BUSY_BIT = 0 ∧
      g.dataLen &&& BPF_RINGBUF_DISCARD_BIT = 0 := by
  refine ⟨by rw [readRecord_some r h hh, hb]; simp, ?_⟩
  intro g
  have hlt := dataLen_lt g
  exact ⟨land_two_pow_eq_zero (lt_trans hlt (by norm_num)),
    land_two_pow_eq_zero hlt⟩

/-- C10 witness: the concrete header `0xC0000005` with both flag bits set
is treated as busy, and its decoded length masks both bits off. -/
theorem c10_busy_precedes_discard_witness :
    readHeader rBoth64 = some ⟨3221225477⟩ ∧
    (⟨3221225477⟩ : ringbufHeader).isBusy = true ∧
    (⟨3221225477⟩ : ringbufHeader).isDiscard = true ∧
    readRecord rBoth64 = (rBoth64, .busy) ∧
    (⟨3221225477⟩ : ringbufHeader).dataLen = 5 :=
  ⟨by decide, by decide, by decide,
    (c10_busy_precedes_discard rBoth64 ⟨3221225477⟩ (by decide) (by decide)
      (by decide)).1,
    by decide⟩

/-- C5: on the waiting path of `ReadInto` (no data in hand), a poller error
other than deadline-exceeded is returned to the caller unmodified; a
deadline-exceeded error is surfaced only when the re-check confirms the
ring is empty; and when the re-check finds the ring non-empty the error is
suppressed and `ReadInto` proceeds to drain and return the available
record. -/
theorem c5_deadline_suppression (rd : Reader) (r : RingState)
    (poll : Nat → Option PollErr) (fuel : Nat)
    (hring : rd.ring = some r) (hhd : rd.haveData = false) :
    (∀ e, poll 0 = some e → e ≠ .deadlineExceeded →
      (rd.ReadInto poll (fuel + 2)).2 = .pollErr e) ∧
    (poll 0 = some .deadlineExceeded → isEmpty r = true →
      (rd.ReadInto poll (fuel + 2)).2 = .pollErr .deadlineExceeded) ∧
    (∀ r' p rem, poll 0 = some .deadlineExceeded → isEmpty r = false →
      readRecord r = (r', .ok p rem) →
      (rd.ReadInto poll (fuel + 2)).2 = .record p rem) := by
  refine ⟨?_, ?_, ?_⟩
  · intro e hp hne
    cases e with
    | deadlineExceeded => exact absurd rfl hne
    | closed => simp [Reader.ReadInto, hring, hhd, readIntoLoop, hp]
    | ioFailure c => simp [Reader.ReadInto, hring, hhd, readIntoLoop, hp]
  · intro hp hemp
    simp [Reader.ReadInto, hring, hhd, readIntoLoop, hp, hemp]
  · intro r' p rem hp hnemp hrr
    simp [Reader.ReadInto, hring, hhd, readIntoLoop, hp, hnemp, hrr]

/-- C5 witness: a past deadline with a non-empty ring (the suppressed-wakeup
scenario): the deadline-exceeded error from the wait is suppressed and the
staged record is returned. -/
theorem c5_deadline_suppression_witness :
    (freshReader 64 (writeAll (mkRing 64) [[9, 9]])).ring
      = some (writeAll (mkRing 64) [[9, 9]]) ∧
    (freshReader 64 (writeAll (mkRing 64) [[9, 9]])).haveData = false ∧
    isEmpty (writeAll (mkRing 64) [[9, 9]]) = false ∧
    ((freshReader 64 (writeAll (mkRing 64) [[9, 9]])).ReadInto
      (fun _ => some .deadlineExceeded) 2).2 = .record [9, 9] 0 :=
  ⟨rfl, rfl, by decide,
    (c5_deadline_suppression (freshReader 64 (writeAll (mkRing 64) [[9, 9]]))
        (writeAll (mkRing 64) [[9, 9]]) (fun _ => some .deadlineExceeded) 0
        rfl rfl).2.2
      (readRecord (writeAll (mkRing 64) [[9, 9]])).1 [9, 9] 0 rfl (by decide)
      (Prod.ext rfl (by decide))⟩

/-- C6 counterexample: not every operation on a closed Reader fails with a
closed error — `BufferSize` on a just-closed Reader still returns the
cached capacity (its signature has no error at all), contradicting the
claim's "every operation on it fails with a closed error". -/
theorem c6_buffersize_survives_close :
    ((freshReader 4096 (mkRing 4096)).Close).1.BufferSize = 4096 := by
  rfl

/-- C6 (amended): after `Close` has completed, the Reader is terminally
closed: the ring reference is nulled (and stays nulled), and every
subsequent `Read`/`ReadInto` fails with the error wrapping `ErrClosed`
without touching the ring or any other state; `BufferSize` (and
`SetDeadline`), however, do not fail — `BufferSize` still returns the
cached size. -/
theorem c6_closed_terminal (rd : Reader) (hpc : rd.pollerClosed = false) :
    (rd.Close).1.ring = none ∧
    (∀ poll fuel, ((rd.Close).1.ReadInto poll fuel) = ((rd.Close).1, .closedErr)) ∧
    ((rd.Close).1.Close).1.ring = none ∧
    (rd.Close).1.BufferSize = rd.bufferSize := by
  cases hr : rd.ring <;>
    simp [Reader.Close, pollerCloseErrClosed, hpc, hr, Reader.ReadInto,
      Reader.BufferSize]

/-- C6 (amended) witness: a concrete open Reader, closed, rejects
subsequent reads with the closed error while `BufferSize` still answers. -/
theorem c6_closed_terminal_witness :
    (freshReader 4096 (mkRing 4096)).pollerClosed = false ∧
    (((freshReader 4096 (mkRing 4096)).Close).1.ring = none ∧
      (∀ poll fuel, (((freshReader 4096 (mkRing 4096)).Close).1.ReadInto poll fuel)
        = (((freshReader 4096 (mkRing 4096)).Close).1, .closedErr)) ∧
      ((((freshReader 4096 (mkRing 4096)).Close).1.Close).1.ring = none) ∧
      ((freshReader 4096 (mkRing 4096)).Close).1.BufferSize
        = (freshReader 4096 (mkRing 4096)).bufferSize) :=
  ⟨rfl, c6_closed_terminal (freshReader 4096 (mkRing 4096)) rfl⟩

/-- C7: `Close` on an already-closed Reader returns no error (the poller's
closed error is mapped to nil), the second `Close` changes nothing, and
the ring is torn down at most once across both calls. -/
theorem c7_close_idempotent (rd : Reader) (hpc : rd.pollerClosed = false)
    (hcc : rd.ringCloseCount = 0) :
    (rd.Close).2 = none ∧
    ((rd.Close).1.Close).2 = none ∧
    ((rd.Close).1.Close).1 = (rd.Close).1 ∧
    (rd.Close).1.ringCloseCount ≤ 1 ∧
    ((rd.Close).1.Close).1.ringCloseCount ≤ 1 := by
  cases hr : rd.ring <;>
    simp [Reader.Close, pollerCloseErrClosed, hpc, hr, hcc]

/-- C7 witness: closing a concrete open Reader twice: both calls return no
error and the ring is torn down exactly once. -/
theorem c7_close_idempotent_witness :
    (freshReader 4096 (mkRing 4096)).pollerClosed = false ∧
    (freshReader 4096 (mkRing 4096)).ringCloseCount = 0 ∧
    (((freshReader 4096 (mkRing 4096)).Close).2 = none ∧
      (((freshReader 4096 (mkRing 4096)).Close).1.Close).2 = none ∧
      (((freshReader 4096 (mkRing 4096)).Close).1.Close).1
        = ((freshReader 4096 (mkRing 4096)).Close).1 ∧
      ((freshReader 4096 (mkRing 4096)).Close).1.ringCloseCount ≤ 1 ∧
      (((freshReader 4096 (mkRing 4096)).Close).1.Close).1.ringCloseCount ≤ 1) :=
  ⟨rfl, rfl, c7_close_idempotent (freshReader 4096 (mkRing 4096)) rfl rfl⟩

/-- C8: construction fails — the result is an error, so no partial Reader
is returned — whenever the map is not of the ring-buffer kind or its
capacity is zero or not a power of two; and on all these paths no
resources at all (poller, ring mapping) have been acquired, because both
checks precede every acquisition. -/
theorem c8_construction_rejects (m : BpfMap) (pollerOk addOk mapOk : Bool)
    (hbad : m.typ ≠ MapType.ringBuf ∨ m.maxEntries = 0 ∨
      ¬∃ k, m.maxEntries = 2 ^ k) :
    (∃ e, (NewReader m pollerOk addOk mapOk).result = .error e) ∧
    (NewReader m pollerOk addOk mapOk).pollersOpened = 0 ∧
    (NewReader m pollerOk addOk mapOk).ringsMapped = 0 := by
  have hfail : m.typ ≠ MapType.ringBuf ∨
      (m.maxEntries = 0 ∨ m.maxEntries &&& (m.maxEntries - 1) ≠ 0) := by
    rcases hbad with ht | h0 | hnp
    · exact Or.inl ht
    · exact Or.inr (Or.inl h0)
    · by_cases h0 : m.maxEntries = 0
      · exact Or.inr (Or.inl h0)
      · exact Or.inr (Or.inr fun hz => hnp (exists_pow_of_land_pred _ h0 hz))
  by_cases ht : m.typ = MapType.ringBuf
  · have hsz : m.maxEntries = 0 ∨ m.maxEntries &&& (m.maxEntries - 1) ≠ 0 := by
      rcases hfail with ht' | hsz
      · exact absurd ht ht'
      · exact hsz
    have hcond : (m.maxEntries = 0 || m.maxEntries &&& (m.maxEntries - 1) != 0)
        = true := by
      rcases hsz with h0 | hl
      · simp [h0]
      · simp [hl]
    refine ⟨⟨.invalidSize m.maxEntries, ?_⟩, ?_, ?_⟩ <;>
      simp [NewReader, ht, hcond]
  · refine ⟨⟨.invalidType m.typ, ?_⟩, ?_, ?_⟩ <;> simp [NewReader, ht]

/-- C8 witness: a ring-buffer map with capacity 100 (not a power of two)
is rejected with no resources acquired. -/
theorem c8_construction_rejects_witness :
    ((⟨MapType.ringBuf, 100⟩ : BpfMap).typ ≠ MapType.ringBuf ∨ (100 : Nat) = 0 ∨
      ¬∃ k, (100 : Nat) = 2 ^ k) ∧
    (∃ e, (NewReader ⟨MapType.ringBuf, 100⟩ true true true).result = .error e) ∧
    (NewReader ⟨MapType.ringBuf, 100⟩ true true true).pollersOpened = 0 ∧
    (NewReader ⟨MapType.ringBuf, 100⟩ true true true).ringsMapped = 0 := by
  have h100 : ¬∃ k, (100 : Nat) = 2 ^ k := by
    rintro ⟨k, hk⟩
    rcases Nat.lt_or_ge k 7 with h | h
    · interval_cases k <;> norm_num at hk
    · have h2 : (2 : Nat) ^ 7 ≤ 2 ^ k := Nat.pow_le_pow_right (by norm_num) h
      have h128 : (128 : Nat) ≤ 2 ^ k := by norm_num at h2; omega
      omega
  obtain ⟨h1, h2, h3⟩ := c8_construction_rejects ⟨MapType.ringBuf, 100⟩ true true true
    (Or.inr (Or.inr h100))
  exact ⟨Or.inr (Or.inr h100), h1, h2, h3⟩

end RingbufSpec
